import Mathlib

/-!
# s3-restore: restoring objects of a versioned bucket by removing delete markers

A shallow embedding of `s3-restore.go`.

* Go strings are embedded as Lean strings (the program only handles UTF-8 text, on which
  the byte-wise `strings.HasPrefix`, `strings.Split` and `strings.Replace` agree with the
  character-wise functions below, the separators being ASCII).
* The storage service `s3svc` is a pair of functions giving the response of each call.
* The program's mutable package variables are the record `Globals`, passed explicitly.
* What the program prints and which storage calls it issues is returned as a list of
  `Event`s, in program order.  Elapsed times are not part of the embedding.
* `totalRestored` is a Go `int`; it grows by one per storage delete call, so it is embedded
  as a natural number (2^63 sequential network calls are out of reach).
* The pointer fields `Key` and `IsLatest`, which the program dereferences, are embedded as
  present values: entries are the delete markers of a listing response.
-/

namespace S3Restore

/-! ## Data model -/

/-- One `s3.DeleteMarkerEntry` of a listing response. -/
structure DeleteMarkerEntry where
  Key : String
  VersionId : Option String
  IsLatest : Bool
deriving DecidableEq, Repr

/-- The fields of `s3.ListObjectVersionsOutput` that the program reads. -/
structure ListObjectVersionsOutput where
  DeleteMarkers : List DeleteMarkerEntry
  NextKeyMarker : Option String
deriving DecidableEq, Repr

/-- Response of a listing call: the output, or the error returned with it. -/
inductive ListResult where
  | ok (objects : ListObjectVersionsOutput)
  | err (e : String)
deriving DecidableEq, Repr

/-- The storage client `s3svc`: the response to each call. `DeleteObject` gives the error
value of the call (`none` for a nil error). -/
structure S3 where
  ListObjectVersions : (Bucket Prefix : String) → (KeyMarker : Option String) → ListResult
  DeleteObject : (Bucket Key : String) → (VersionId : Option String) → Option String

/-- The package-level variables that the restore code reads or writes. -/
structure Globals where
  maxThreads : Int
  bucketName : String
  prefixes : List String
  dryRun : Bool
  totalRestored : Nat
deriving DecidableEq, Repr

/-- Value of the package variables at program start (the `var` block), `maxThreads` and
`bucketName` then being set from the command line. -/
def initGlobals (maxThreads : Int) (bucketName : String) : Globals :=
  { maxThreads := maxThreads, bucketName := bucketName, prefixes := [], dryRun := true,
    totalRestored := 0 }

/-- Observable actions: printed lines and storage calls, with the response a delete call got. -/
inductive Event where
  | totalPrefixes (n : Nat)
  | startedThread (pfx : String)
  | listObjectVersions (bucket pfx : String) (keyMarker : Option String)
  | wouldHaveRestored (key : String)
  | restoring (key : String)
  | deleteObject (bucket key : String) (versionId : Option String) (err : Option String)
  | restored (key : String)
  | prefixDone (pfx : String)
  | allDone (restoredObjects : Nat)
deriving DecidableEq, Repr

/-- How a function of the program ends. `outOfFuel` stands for a loop that was still running
when the iteration budget of the embedding ran out. -/
inductive Status where
  | returned
  | panicked (err : String)
  | deadlock
  | outOfFuel
deriving DecidableEq, Repr

/-- Result of running a function: how it ended, the package variables and what it emitted. -/
structure Run where
  status : Status
  globals : Globals
  events : List Event
deriving DecidableEq, Repr

/-! ## String functions of the Go standard library used by the program -/

/-- Go `strings.HasPrefix(s, prefix)`. -/
def HasPrefix (s pfx : String) : Bool :=
  pfx.data.isPrefixOf s.data

/-- Fields of a character sequence cut at every occurrence of `sep`. -/
def splitChars (sep : Char) : List Char → List (List Char)
  | [] => [[]]
  | c :: cs =>
    if c = sep then [] :: splitChars sep cs
    else
      match splitChars sep cs with
      | [] => [[c]]
      | f :: fs => (c :: f) :: fs

/-- Go `strings.Split(s, sep)` for a one-character separator. -/
def Split (s : String) (sep : Char) : List String :=
  (splitChars sep s.data).map String.mk

/-- Go `strings.Replace(s, old, new, -1)` for a one-character `old`. -/
def Replace (s : String) (old : Char) (new : String) : String :=
  String.mk (s.data.flatMap (fun c => if c = old then new.data else [c]))

/-! ## The program -/

/-- Lines 110-130. The error value of `DeleteObject` is not bound by the source. -/
def restoreS3Object (s3svc : S3) (pfx : String) :
    List DeleteMarkerEntry → Globals → Globals × List Event
  | [], g => (g, [])
  | marker :: markers, g =>
    if marker.IsLatest then
      if HasPrefix marker.Key pfx then
        if g.dryRun then
          let r := restoreS3Object s3svc pfx markers g
          (r.1, Event.wouldHaveRestored marker.Key :: r.2)
        else
          let err := s3svc.DeleteObject g.bucketName marker.Key marker.VersionId
          let r := restoreS3Object s3svc pfx markers
            { g with totalRestored := g.totalRestored + 1 }
          (r.1, Event.restoring marker.Key
                :: Event.deleteObject g.bucketName marker.Key marker.VersionId err
                :: Event.restored marker.Key :: r.2)
      else restoreS3Object s3svc pfx markers g
    else restoreS3Object s3svc pfx markers g

/-- Lines 91-103: the loop `for keyMarker != nil`, one unit of fuel per iteration. -/
def restoreByPrefixLoop (s3svc : S3) (pfx : String) :
    Nat → Option String → Globals → Run
  | _, none, g => ⟨Status.returned, g, []⟩
  | 0, some _, g => ⟨Status.outOfFuel, g, []⟩
  | fuel + 1, some keyMarker, g =>
    match s3svc.ListObjectVersions g.bucketName pfx (some keyMarker) with
    | ListResult.err e =>
      ⟨Status.panicked e, g, [Event.listObjectVersions g.bucketName pfx (some keyMarker)]⟩
    | ListResult.ok objects =>
      let r := restoreS3Object s3svc pfx objects.DeleteMarkers g
      let k := restoreByPrefixLoop s3svc pfx fuel objects.NextKeyMarker r.1
      ⟨k.status, k.globals,
        Event.listObjectVersions g.bucketName pfx (some keyMarker) :: (r.2 ++ k.events)⟩

/-- Lines 75-108, as far as the data is concerned: first page, then the loop, then the
closing line. (Taking the token out of `getRestoreQueue`, line 104, is in `Pool` below.) -/
def restoreByPrefix (s3svc : S3) (pfx : String) (fuel : Nat) (g : Globals) : Run :=
  match s3svc.ListObjectVersions g.bucketName pfx none with
  | ListResult.err e =>
    ⟨Status.panicked e, g, [Event.listObjectVersions g.bucketName pfx none]⟩
  | ListResult.ok objects =>
    let r := restoreS3Object s3svc pfx objects.DeleteMarkers g
    let k := restoreByPrefixLoop s3svc pfx fuel objects.NextKeyMarker r.1
    match k.status with
    | Status.returned =>
      ⟨Status.returned, k.globals,
        Event.listObjectVersions g.bucketName pfx none
          :: (r.2 ++ k.events ++ [Event.prefixDone pfx])⟩
    | st =>
      ⟨st, k.globals, Event.listObjectVersions g.bucketName pfx none :: (r.2 ++ k.events)⟩

/-- Lines 64-69, under the schedule in which a started task runs to its end before the loop
goes on (with `maxThreads = 1` the token channel forces this schedule up to the place of the
closing lines). A send on a channel of capacity 0 finds no receiver: the run deadlocks. A
panic in a task ends the process. -/
def restoreStarterLoop (s3svc : S3) (fuel : Nat) : List String → Globals → Run
  | [], g => ⟨Status.returned, g, []⟩
  | pfx :: rest, g =>
    if g.maxThreads = 0 then ⟨Status.deadlock, g, []⟩
    else
      let t := restoreByPrefix s3svc pfx fuel g
      match t.status with
      | Status.returned =>
        let k := restoreStarterLoop s3svc fuel rest t.globals
        ⟨k.status, k.globals, Event.startedThread pfx :: (t.events ++ k.events)⟩
      | st => ⟨st, t.globals, Event.startedThread pfx :: t.events⟩

/-- Lines 55-73 under that schedule. `make(chan int, maxThreads)` panics on a negative size. -/
def restoreStarter (s3svc : S3) (fuel : Nat) (g : Globals) : Run :=
  if g.maxThreads < 0 then
    ⟨Status.panicked "makechan: size out of range", g,
      [Event.totalPrefixes g.prefixes.length]⟩
  else
    let k := restoreStarterLoop s3svc fuel g.prefixes g
    match k.status with
    | Status.returned =>
      ⟨Status.returned, k.globals,
        Event.totalPrefixes g.prefixes.length
          :: (k.events ++ [Event.allDone k.globals.totalRestored])⟩
    | st => ⟨st, k.globals, Event.totalPrefixes g.prefixes.length :: k.events⟩

/-- What reading the prefixes file gives: the error of `os.Open` if any, the lines that
`scanner.Scan` yields, and the error of `scanner.Err` if any. -/
structure PrefixesFile where
  openErr : Option String
  lines : List String
  scanErr : Option String
deriving DecidableEq, Repr

/-- Lines 152-158: the scanning loop. -/
def parsePrefixesLoop : List String → Globals → Status × Globals
  | [], g => (Status.returned, g)
  | text :: rest, g =>
    match Split text ',' with
    | [] => (Status.panicked "index out of range [0] with length 0", g)
    | field :: _ =>
      let p := Replace field '"' ""
      if p != "embed_code" && p != "" && decide (p.length > 0) then
        parsePrefixesLoop rest { g with prefixes := g.prefixes ++ [p] }
      else parsePrefixesLoop rest g

/-- Lines 144-164. -/
def parsePrefixesFile (file : PrefixesFile) (g : Globals) : Status × Globals :=
  match file.openErr with
  | some e => (Status.panicked e, g)
  | none =>
    match parsePrefixesLoop file.lines g with
    | (Status.returned, g1) =>
      match file.scanErr with
      | some e => (Status.panicked e, g1)
      | none => (Status.returned, g1)
    | r => r

/-- Lines 132-136. -/
def showObjects (s3svc : S3) (file : PrefixesFile) (fuel : Nat) (g : Globals) : Run :=
  match parsePrefixesFile file g with
  | (Status.returned, g1) => restoreStarter s3svc fuel { g1 with dryRun := true }
  | (st, g1) => ⟨st, g1, []⟩

/-- Lines 138-142. -/
def restoreObjects (s3svc : S3) (file : PrefixesFile) (fuel : Nat) (g : Globals) : Run :=
  match parsePrefixesFile file g with
  | (Status.returned, g1) => restoreStarter s3svc fuel { g1 with dryRun := false }
  | (st, g1) => ⟨st, g1, []⟩

/-- The cleaned value of a line in the words of the specification: its first
comma-separated field with every double-quote character removed. -/
def cleanedLine (text : String) : String :=
  String.mk ((text.data.takeWhile (fun c => c != ',')).filter (fun c => c != '"'))

/-- The lines that the loader keeps: cleaned value neither empty nor the header sentinel. -/
def keptPrefix (p : String) : Bool :=
  p != "" && p != "embed_code"

/-! ## Reading a trace -/

/-- The delete calls of a trace, as (key, version id), in order. -/
def deleteCalls : List Event → List (String × Option String)
  | [] => []
  | Event.deleteObject _ key versionId _ :: es => (key, versionId) :: deleteCalls es
  | _ :: es => deleteCalls es

/-- The keys of the dry-run report lines of a trace, in order. -/
def wouldHaveRestoredKeys : List Event → List String
  | [] => []
  | Event.wouldHaveRestored key :: es => key :: wouldHaveRestoredKeys es
  | _ :: es => wouldHaveRestoredKeys es

/-- The cursors of the listing calls of a trace, in order. -/
def listCalls : List Event → List (Option String)
  | [] => []
  | Event.listObjectVersions _ _ keyMarker :: es => keyMarker :: listCalls es
  | _ :: es => listCalls es

/-- The trace without its listing calls and closing lines: what the calls of
`restoreS3Object` emitted. -/
def markerEvents : List Event → List Event
  | [] => []
  | Event.listObjectVersions _ _ _ :: es => markerEvents es
  | Event.prefixDone _ :: es => markerEvents es
  | e :: es => e :: markerEvents es

/-- A marker that the restore acts on under `pfx`: latest, and its key starts with `pfx`. -/
def qualifies (pfx : String) (m : DeleteMarkerEntry) : Bool :=
  m.IsLatest && HasPrefix m.Key pfx

/-! ## Listings -/

/-- How a sequence of listing calls ends: the listing is exhausted (the last page came
without a cursor), or the call with cursor `c` returns the error `e`. -/
inductive ListingEnd where
  | exhausted
  | failed (c : Option String) (e : String)
deriving DecidableEq, Repr

/-- How the prefix task ends for a given end of its listing. -/
def ListingEnd.status : ListingEnd → Status
  | ListingEnd.exhausted => Status.returned
  | ListingEnd.failed _ e => Status.panicked e

/-- The last call of a listing that ends in an error. -/
def ListingEnd.trace (bucket pfx : String) : ListingEnd → List Event
  | ListingEnd.exhausted => []
  | ListingEnd.failed c _ => [Event.listObjectVersions bucket pfx c]

/-- Number of calls beyond the pages: the failing one. -/
def ListingEnd.calls : ListingEnd → Nat
  | ListingEnd.exhausted => 0
  | ListingEnd.failed _ _ => 1

/-- The pages of a listing and how it ends. `Pages list cur steps fin`: `cur` is `some c`
when the next call is due with cursor `c` and `none` when the last page came without a
cursor; each step `(c, markers)` is a call made with cursor `c` that returned the page
`markers`, the cursor of that page being the one of the next call. -/
def Pages (list : Option String → ListResult) :
    Option (Option String) → List (Option String × List DeleteMarkerEntry) → ListingEnd → Prop
  | cur, [], ListingEnd.exhausted => cur = none
  | cur, [], ListingEnd.failed c e => cur = some c ∧ list c = ListResult.err e
  | cur, (c, markers) :: rest, fin =>
    cur = some c ∧
      match list c with
      | ListResult.ok objects =>
        objects.DeleteMarkers = markers ∧ Pages list (objects.NextKeyMarker.map some) rest fin
      | ListResult.err _ => False

/-- All markers of the pages of a listing, in order. -/
def allMarkers (steps : List (Option String × List DeleteMarkerEntry)) :
    List DeleteMarkerEntry :=
  (steps.map Prod.snd).flatten

/-- The trace of a prefix task over the given pages: each call followed by what
`restoreS3Object` emits on its page. -/
def pagesTrace (s3svc : S3) (pfx : String) (g : Globals)
    (steps : List (Option String × List DeleteMarkerEntry)) : List Event :=
  steps.flatMap (fun st =>
    Event.listObjectVersions g.bucketName pfx st.1 :: (restoreS3Object s3svc pfx st.2 g).2)

/-! ## The token channel -/

/-- State of the dispatch loop and its tasks: the index of the next prefix to dispatch, the
number of tokens in `getRestoreQueue`, the tasks that were started and have not yet taken
their token out, and (history) the indices handed to `go restoreByPrefix`, in order. -/
structure Pool where
  next : Nat
  tokens : Nat
  running : Finset Nat
  started : List Nat
deriving DecidableEq

/-- The two kinds of step: one iteration of the loop of `restoreStarter` (lines 65-67), and
task `i` reaching line 104. -/
inductive Action where
  | dispatch
  | finish (i : Nat)
deriving DecidableEq, Repr

/-- State at the loop entry: nothing dispatched, channel empty. -/
def Pool.init : Pool :=
  { next := 0, tokens := 0, running := ∅, started := [] }

/-- One step for `n` prefixes and a channel of capacity `C`. The send of line 65 goes
through only while the channel holds fewer than `C` tokens; the task is started right after
it. The receive of line 104 takes one token out. -/
def Pool.step (C n : Nat) (a : Action) (s : Pool) : Option Pool :=
  match a with
  | Action.dispatch =>
    if s.next < n ∧ s.tokens < C then
      some { next := s.next + 1, tokens := s.tokens + 1,
             running := insert s.next s.running, started := s.started ++ [s.next] }
    else none
  | Action.finish i =>
    if i ∈ s.running ∧ 0 < s.tokens then
      some { next := s.next, tokens := s.tokens - 1,
             running := s.running.erase i, started := s.started }
    else none

/-- Run a sequence of steps; `none` when one of them is not enabled. -/
def Pool.exec (C n : Nat) : List Action → Pool → Option Pool
  | [], s => some s
  | a :: acts, s =>
    match Pool.step C n a s with
    | none => none
    | some s1 => Pool.exec C n acts s1

/-! ## The shared counter -/

/-- A task as far as `totalRestored++` (line 125) goes: how many increments it still has to
do, and the value it has read for an increment whose write is still to come. -/
structure Worker where
  pending : Nat
  loaded : Option Nat
deriving DecidableEq, Repr

/-- The counter and the tasks that update it. -/
structure Shared where
  totalRestored : Nat
  workers : List Worker
deriving DecidableEq, Repr

/-- Task `i` takes its next step: the read of `totalRestored++`, or the write of the value
read plus one. The source has no lock or atomic operation around the two. -/
def Shared.step (i : Nat) (s : Shared) : Shared :=
  match s.workers.get? i with
  | none => s
  | some w =>
    match w.loaded with
    | some v =>
      { totalRestored := v + 1,
        workers := s.workers.set i { pending := w.pending - 1, loaded := none } }
    | none =>
      if w.pending = 0 then s
      else { s with workers := s.workers.set i { w with loaded := some s.totalRestored } }

/-- Run the tasks in the order of a schedule. -/
def Shared.run (schedule : List Nat) (s : Shared) : Shared :=
  schedule.foldl (fun acc i => Shared.step i acc) s

/-! ## Sample inputs -/

/-- A storage with two pages under "orders/2020/" (a latest marker, then a marker that is
not latest), one page under "orders/2021/" (a latest marker), and nothing elsewhere. -/
def sampleS3 : S3 where
  ListObjectVersions := fun _ pfx keyMarker =>
    if pfx = "orders/2020/" then
      match keyMarker with
      | none =>
        ListResult.ok ⟨[⟨"orders/2020/a", some "v2", true⟩], some "orders/2020/a"⟩
      | some _ => ListResult.ok ⟨[⟨"orders/2020/b", some "v1", false⟩], none⟩
    else if pfx = "orders/2021/" then
      ListResult.ok ⟨[⟨"orders/2021/c", some "v7", true⟩], none⟩
    else ListResult.ok ⟨[], none⟩
  DeleteObject := fun _ _ _ => none

/-- The pages of `sampleS3` under each prefix. -/
def samplePages (pfx : String) : List (Option String × List DeleteMarkerEntry) :=
  if pfx = "orders/2020/" then
    [(none, [⟨"orders/2020/a", some "v2", true⟩]),
     (some "orders/2020/a", [⟨"orders/2020/b", some "v1", false⟩])]
  else if pfx = "orders/2021/" then [(none, [⟨"orders/2021/c", some "v7", true⟩])]
  else [(none, [])]

/-- A storage whose first page holds a marker that is not latest and whose second listing
call fails. -/
def failingS3 : S3 where
  ListObjectVersions := fun _ _ keyMarker =>
    match keyMarker with
    | none => ListResult.ok ⟨[⟨"orders/2020/b", some "v1", false⟩], some "orders/2020/b"⟩
    | some _ => ListResult.err "RequestError: send request failed"
  DeleteObject := fun _ _ _ => none

/-- A storage that lists two latest markers under any prefix and rejects every delete. -/
def rejectingS3 : S3 where
  ListObjectVersions := fun _ _ _ =>
    ListResult.ok ⟨[⟨"a/x", some "v1", true⟩, ⟨"a/y", some "v2", true⟩], none⟩
  DeleteObject := fun _ _ _ => some "AccessDenied"

/-- Package variables of a DryRun run on bucket "b" for the two sample prefixes: the values
at program start, with the prefixes loaded. -/
def sampleDry : Globals :=
  { initGlobals 5 "b" with prefixes := ["orders/2020/", "orders/2021/"] }

/-- Package variables of an Apply run on bucket "b" for the two sample prefixes. -/
def sampleApply : Globals :=
  { sampleDry with dryRun := false }

/-- Three markers: one latest under "a/", one under "a/" that is not latest, one latest
under another prefix. -/
def sampleMarkers : List DeleteMarkerEntry :=
  [⟨"a/x", some "v1", true⟩, ⟨"a/y", some "v2", false⟩, ⟨"b/z", some "v3", true⟩]

/-! ## Lemmas on `restoreS3Object` -/

theorem qualifies_iff (pfx : String) (m : DeleteMarkerEntry) :
    qualifies pfx m = true ↔ m.IsLatest = true ∧ pfx.data <+: m.Key.data := by
  simp [qualifies, HasPrefix]

theorem restoreS3Object_globals (s3svc : S3) (pfx : String) (markers : List DeleteMarkerEntry)
    (g : Globals) :
    (restoreS3Object s3svc pfx markers g).1 =
      { g with totalRestored :=
          g.totalRestored + (if g.dryRun then 0 else markers.countP (qualifies pfx)) } := by
  induction markers generalizing g with
  | nil => simp [restoreS3Object]
  | cons m ms ih =>
    by_cases h1 : m.IsLatest = true <;> by_cases h2 : HasPrefix m.Key pfx = true <;>
      by_cases h3 : g.dryRun = true <;>
      simp [restoreS3Object, h1, h2, h3, ih, qualifies, List.countP_cons]
    omega

theorem restoreS3Object_events_congr (s3svc : S3) (pfx : String)
    (markers : List DeleteMarkerEntry) (g g1 : Globals)
    (hd : g.dryRun = g1.dryRun) (hb : g.bucketName = g1.bucketName) :
    (restoreS3Object s3svc pfx markers g).2 = (restoreS3Object s3svc pfx markers g1).2 := by
  induction markers generalizing g g1 with
  | nil => simp [restoreS3Object]
  | cons m ms ih =>
    by_cases h1 : m.IsLatest = true <;> by_cases h2 : HasPrefix m.Key pfx = true <;>
      by_cases h3 : g1.dryRun = true
    all_goals simp [restoreS3Object, h1, h2, h3, hd, hb]
    all_goals first
      | exact ih _ _ hd hb
      | exact ih _ _ (by simp [hd]) (by simp [hb])

theorem restoreS3Object_append (s3svc : S3) (pfx : String)
    (a b : List DeleteMarkerEntry) (g : Globals) :
    restoreS3Object s3svc pfx (a ++ b) g =
      ((restoreS3Object s3svc pfx b (restoreS3Object s3svc pfx a g).1).1,
        (restoreS3Object s3svc pfx a g).2
          ++ (restoreS3Object s3svc pfx b (restoreS3Object s3svc pfx a g).1).2) := by
  induction a generalizing g with
  | nil => simp [restoreS3Object]
  | cons m ms ih =>
    by_cases h1 : m.IsLatest = true <;> by_cases h2 : HasPrefix m.Key pfx = true <;>
      by_cases h3 : g.dryRun = true <;>
      simp [restoreS3Object, h1, h2, h3, ih]

theorem deleteCalls_append (a b : List Event) :
    deleteCalls (a ++ b) = deleteCalls a ++ deleteCalls b := by
  induction a with
  | nil => rfl
  | cons e es ih => cases e <;> simp [deleteCalls, ih]

theorem wouldHaveRestoredKeys_append (a b : List Event) :
    wouldHaveRestoredKeys (a ++ b) = wouldHaveRestoredKeys a ++ wouldHaveRestoredKeys b := by
  induction a with
  | nil => rfl
  | cons e es ih => cases e <;> simp [wouldHaveRestoredKeys, ih]

theorem listCalls_append (a b : List Event) :
    listCalls (a ++ b) = listCalls a ++ listCalls b := by
  induction a with
  | nil => rfl
  | cons e es ih => cases e <;> simp [listCalls, ih]

theorem markerEvents_append (a b : List Event) :
    markerEvents (a ++ b) = markerEvents a ++ markerEvents b := by
  induction a with
  | nil => rfl
  | cons e es ih => cases e <;> simp [markerEvents, ih]

theorem restoreS3Object_deleteCalls_apply (s3svc : S3) (pfx : String)
    (markers : List DeleteMarkerEntry) (g : Globals) (hd : g.dryRun = false) :
    deleteCalls (restoreS3Object s3svc pfx markers g).2 =
      (markers.filter (qualifies pfx)).map (fun m => (m.Key, m.VersionId)) := by
  induction markers generalizing g with
  | nil => simp [restoreS3Object, deleteCalls]
  | cons m ms ih =>
    by_cases h1 : m.IsLatest = true <;> by_cases h2 : HasPrefix m.Key pfx = true <;>
      simp [restoreS3Object, h1, h2, hd, qualifies, deleteCalls] <;>
      first
        | (simpa [qualifies] using ih g hd)
        | (simpa [qualifies] using ih _ (by simp [hd]))

theorem restoreS3Object_deleteCalls_dry (s3svc : S3) (pfx : String)
    (markers : List DeleteMarkerEntry) (g : Globals) (hd : g.dryRun = true) :
    deleteCalls (restoreS3Object s3svc pfx markers g).2 = [] := by
  induction markers generalizing g with
  | nil => simp [restoreS3Object, deleteCalls]
  | cons m ms ih =>
    by_cases h1 : m.IsLatest = true <;> by_cases h2 : HasPrefix m.Key pfx = true <;>
      simp [restoreS3Object, h1, h2, hd, deleteCalls, ih g hd]

theorem restoreS3Object_would_dry (s3svc : S3) (pfx : String)
    (markers : List DeleteMarkerEntry) (g : Globals) (hd : g.dryRun = true) :
    wouldHaveRestoredKeys (restoreS3Object s3svc pfx markers g).2 =
      (markers.filter (qualifies pfx)).map (fun m => m.Key) := by
  induction markers generalizing g with
  | nil => simp [restoreS3Object, wouldHaveRestoredKeys]
  | cons m ms ih =>
    by_cases h1 : m.IsLatest = true <;> by_cases h2 : HasPrefix m.Key pfx = true <;>
      simp [restoreS3Object, h1, h2, hd, qualifies, wouldHaveRestoredKeys] <;>
      simpa [qualifies] using ih g hd

theorem restoreS3Object_listCalls (s3svc : S3) (pfx : String)
    (markers : List DeleteMarkerEntry) (g : Globals) :
    listCalls (restoreS3Object s3svc pfx markers g).2 = [] := by
  induction markers generalizing g with
  | nil => simp [restoreS3Object, listCalls]
  | cons m ms ih =>
    by_cases h1 : m.IsLatest = true <;> by_cases h2 : HasPrefix m.Key pfx = true <;>
      by_cases h3 : g.dryRun = true <;>
      simp [restoreS3Object, h1, h2, h3, listCalls, ih]

theorem restoreS3Object_markerEvents (s3svc : S3) (pfx : String)
    (markers : List DeleteMarkerEntry) (g : Globals) :
    markerEvents (restoreS3Object s3svc pfx markers g).2
      = (restoreS3Object s3svc pfx markers g).2 := by
  induction markers generalizing g with
  | nil => simp [restoreS3Object, markerEvents]
  | cons m ms ih =>
    by_cases h1 : m.IsLatest = true <;> by_cases h2 : HasPrefix m.Key pfx = true <;>
      by_cases h3 : g.dryRun = true <;>
      simp [restoreS3Object, h1, h2, h3, markerEvents, ih]


/-! ## Pagination -/

theorem restoreS3Object_bucketName (s3svc : S3) (pfx : String)
    (markers : List DeleteMarkerEntry) (g : Globals) :
    (restoreS3Object s3svc pfx markers g).1.bucketName = g.bucketName := by
  rw [restoreS3Object_globals]

theorem restoreS3Object_dryRun (s3svc : S3) (pfx : String)
    (markers : List DeleteMarkerEntry) (g : Globals) :
    (restoreS3Object s3svc pfx markers g).1.dryRun = g.dryRun := by
  rw [restoreS3Object_globals]

theorem pagesTrace_congr (s3svc : S3) (pfx : String) (g g1 : Globals)
    (hd : g.dryRun = g1.dryRun) (hb : g.bucketName = g1.bucketName)
    (steps : List (Option String × List DeleteMarkerEntry)) :
    pagesTrace s3svc pfx g steps = pagesTrace s3svc pfx g1 steps := by
  unfold pagesTrace
  congr 1
  funext st
  rw [hb, restoreS3Object_events_congr s3svc pfx st.2 g g1 hd hb]

theorem pagesTrace_cons (s3svc : S3) (pfx : String) (g : Globals)
    (c : Option String) (markers : List DeleteMarkerEntry)
    (rest : List (Option String × List DeleteMarkerEntry)) :
    pagesTrace s3svc pfx g ((c, markers) :: rest) =
      Event.listObjectVersions g.bucketName pfx c
        :: ((restoreS3Object s3svc pfx markers g).2 ++ pagesTrace s3svc pfx g rest) := by
  simp [pagesTrace]

theorem allMarkers_cons (c : Option String) (markers : List DeleteMarkerEntry)
    (rest : List (Option String × List DeleteMarkerEntry)) :
    allMarkers ((c, markers) :: rest) = markers ++ allMarkers rest := by
  simp [allMarkers]

theorem restoreByPrefixLoop_pages (s3svc : S3) (pfx : String)
    (steps : List (Option String × List DeleteMarkerEntry)) (fin : ListingEnd) :
    ∀ (fuel : Nat) (nk : Option String) (g : Globals),
      Pages (s3svc.ListObjectVersions g.bucketName pfx) (nk.map some) steps fin →
      steps.length + fin.calls ≤ fuel →
      restoreByPrefixLoop s3svc pfx fuel nk g =
        ⟨fin.status, (restoreS3Object s3svc pfx (allMarkers steps) g).1,
          pagesTrace s3svc pfx g steps ++ fin.trace g.bucketName pfx⟩ := by
  induction steps with
  | nil =>
    intro fuel nk g hp hf
    cases fin with
    | exhausted =>
      have hnk : nk = none := by simpa [Pages] using hp
      subst hnk
      cases fuel <;>
        simp [restoreByPrefixLoop, ListingEnd.status, ListingEnd.trace, allMarkers,
          pagesTrace, restoreS3Object]
    | failed c e =>
      obtain ⟨hc, he⟩ := hp
      cases nk with
      | none => simp at hc
      | some k =>
        have hck : c = some k := by simpa using hc.symm
        subst hck
        cases fuel with
        | zero => simp [ListingEnd.calls] at hf
        | succ f =>
          simp [restoreByPrefixLoop, he, ListingEnd.status, ListingEnd.trace, allMarkers,
            pagesTrace, restoreS3Object]
  | cons st rest ih =>
    intro fuel nk g hp hf
    obtain ⟨c, markers⟩ := st
    obtain ⟨hc, hm⟩ := hp
    cases nk with
    | none => simp at hc
    | some k =>
      have hck : c = some k := by simpa using hc.symm
      subst hck
      cases fuel with
      | zero => simp at hf
      | succ f =>
        cases hl : s3svc.ListObjectVersions g.bucketName pfx (some k) with
        | err e => simp [hl] at hm
        | ok objects =>
          rw [hl] at hm
          obtain ⟨hmk, hrest⟩ := hm
          have hb := restoreS3Object_bucketName s3svc pfx markers g
          have hd := restoreS3Object_dryRun s3svc pfx markers g
          have hrec := ih f objects.NextKeyMarker (restoreS3Object s3svc pfx markers g).1
            (by rw [hb]; exact hrest) (by simp at hf; omega)
          simp only [restoreByPrefixLoop, hl, hmk, hrec, hb, allMarkers_cons,
            restoreS3Object_append, pagesTrace_cons,
            pagesTrace_congr s3svc pfx _ g hd hb rest]
          simp

theorem restoreByPrefix_pages (s3svc : S3) (pfx : String)
    (steps : List (Option String × List DeleteMarkerEntry)) (fin : ListingEnd)
    (fuel : Nat) (g : Globals)
    (hp : Pages (s3svc.ListObjectVersions g.bucketName pfx) (some none) steps fin)
    (hf : steps.length + fin.calls ≤ fuel + 1) :
    restoreByPrefix s3svc pfx fuel g =
      ⟨fin.status, (restoreS3Object s3svc pfx (allMarkers steps) g).1,
        pagesTrace s3svc pfx g steps ++ fin.trace g.bucketName pfx
          ++ (if fin = ListingEnd.exhausted then [Event.prefixDone pfx] else [])⟩ := by
  cases steps with
  | nil =>
    cases fin with
    | exhausted => simp [Pages] at hp
    | failed c e =>
      obtain ⟨hc, he⟩ := hp
      have hcn : c = none := by simpa using hc.symm
      subst hcn
      simp [restoreByPrefix, he, ListingEnd.status, ListingEnd.trace, allMarkers,
        pagesTrace, restoreS3Object]
  | cons st rest =>
    obtain ⟨c, markers⟩ := st
    obtain ⟨hc, hm⟩ := hp
    have hcn : c = none := by simpa using hc.symm
    subst hcn
    cases hl : s3svc.ListObjectVersions g.bucketName pfx none with
    | err e => simp [hl] at hm
    | ok objects =>
      rw [hl] at hm
      obtain ⟨hmk, hrest⟩ := hm
      have hb := restoreS3Object_bucketName s3svc pfx markers g
      have hd := restoreS3Object_dryRun s3svc pfx markers g
      have hrec := restoreByPrefixLoop_pages s3svc pfx rest fin fuel objects.NextKeyMarker
        (restoreS3Object s3svc pfx markers g).1 (by rw [hb]; exact hrest)
        (by simp at hf; omega)
      cases fin with
      | exhausted =>
        simp only [restoreByPrefix, hl, hmk, hrec, hb, allMarkers_cons,
          restoreS3Object_append, pagesTrace_cons, ListingEnd.status, ListingEnd.trace,
          pagesTrace_congr s3svc pfx _ g hd hb rest]
        simp
      | failed c e =>
        simp only [restoreByPrefix, hl, hmk, hrec, hb, allMarkers_cons,
          restoreS3Object_append, pagesTrace_cons, ListingEnd.status, ListingEnd.trace,
          pagesTrace_congr s3svc pfx _ g hd hb rest]
        simp

theorem listCalls_pagesTrace (s3svc : S3) (pfx : String) (g : Globals)
    (steps : List (Option String × List DeleteMarkerEntry)) :
    listCalls (pagesTrace s3svc pfx g steps) = steps.map Prod.fst := by
  induction steps with
  | nil => simp [pagesTrace, listCalls]
  | cons st rest ih =>
    obtain ⟨c, markers⟩ := st
    rw [pagesTrace_cons]
    simp [listCalls, listCalls_append, restoreS3Object_listCalls, ih]

theorem markerEvents_pagesTrace (s3svc : S3) (pfx : String) (g : Globals)
    (steps : List (Option String × List DeleteMarkerEntry)) :
    markerEvents (pagesTrace s3svc pfx g steps)
      = (restoreS3Object s3svc pfx (allMarkers steps) g).2 := by
  induction steps with
  | nil => simp [pagesTrace, markerEvents, allMarkers, restoreS3Object]
  | cons st rest ih =>
    obtain ⟨c, markers⟩ := st
    have hb := restoreS3Object_bucketName s3svc pfx markers g
    have hd := restoreS3Object_dryRun s3svc pfx markers g
    rw [pagesTrace_cons, allMarkers_cons, restoreS3Object_append]
    simp only [markerEvents, markerEvents_append, restoreS3Object_markerEvents, ih]
    rw [restoreS3Object_events_congr s3svc pfx (allMarkers rest) _ g hd hb]


/-! ## Claims on `restoreS3Object` and `restoreByPrefix` -/

/-- C1. In Apply mode the delete calls of `restoreS3Object` are, in listing order and once
each, the (Key, VersionId) of exactly the markers that are latest and whose key starts with
the prefix; `qualifies` is that condition. -/
theorem restoreS3Object_apply_deletes_exactly (s3svc : S3) (pfx : String)
    (markers : List DeleteMarkerEntry) (g : Globals) (hd : g.dryRun = false) :
    deleteCalls (restoreS3Object s3svc pfx markers g).2 =
        (markers.filter (qualifies pfx)).map (fun m => (m.Key, m.VersionId)) ∧
      (∀ m, qualifies pfx m = true ↔ m.IsLatest = true ∧ pfx.data <+: m.Key.data) ∧
      (∀ e ∈ (restoreS3Object s3svc pfx markers g).2,
        ∀ b k v r, e = Event.deleteObject b k v r →
          ∃ m ∈ markers, m.IsLatest = true ∧ pfx.data <+: m.Key.data ∧ k = m.Key ∧
            v = m.VersionId) :=
  ⟨restoreS3Object_deleteCalls_apply s3svc pfx markers g hd, qualifies_iff pfx, by
    intro e he b k v r heq
    subst heq
    induction markers generalizing g with
    | nil => simp [restoreS3Object] at he
    | cons m ms ih =>
      by_cases h1 : m.IsLatest = true <;> by_cases h2 : HasPrefix m.Key pfx = true
      all_goals simp only [restoreS3Object, h1, h2, hd] at he
      all_goals simp at he
      · rcases he with ⟨_, rfl, rfl, _⟩ | he
        · exact ⟨m, by simp, h1, by simpa [HasPrefix] using h2, rfl, rfl⟩
        · obtain ⟨m1, hm1, hrest⟩ := ih _ (by simp [hd]) he
          exact ⟨m1, by simp [hm1], hrest⟩
      all_goals
        obtain ⟨m1, hm1, hrest⟩ := ih _ hd he
        exact ⟨m1, by simp [hm1], hrest⟩⟩

/-- C1 on three sample markers under prefix "a/": one delete call, for ("a/x", "v1"). -/
theorem restoreS3Object_apply_deletes_exactly_witness :
    deleteCalls (restoreS3Object sampleS3 "a/" sampleMarkers sampleApply).2
      = [("a/x", some "v1")] := by
  rw [(restoreS3Object_apply_deletes_exactly sampleS3 "a/" sampleMarkers sampleApply rfl).1]
  decide

/-- C3. When the listing of a prefix is a chain of K >= 1 pages (first call without cursor,
each further call with the cursor of the page before, last page without cursor) and the fuel
covers K calls, `restoreByPrefix` returns, its listing calls are exactly the K calls in
cursor order, each followed by the run of `restoreS3Object` on that page, and what the
markers cause is what one run of `restoreS3Object` on the concatenated pages causes. -/
theorem restoreByPrefix_processes_each_page_once (s3svc : S3) (pfx : String)
    (steps : List (Option String × List DeleteMarkerEntry)) (fuel : Nat) (g : Globals)
    (hp : Pages (s3svc.ListObjectVersions g.bucketName pfx) (some none) steps
      ListingEnd.exhausted)
    (hf : steps.length ≤ fuel + 1) :
    1 ≤ steps.length ∧
      (restoreByPrefix s3svc pfx fuel g).status = Status.returned ∧
      (restoreByPrefix s3svc pfx fuel g).events
        = pagesTrace s3svc pfx g steps ++ [Event.prefixDone pfx] ∧
      listCalls (restoreByPrefix s3svc pfx fuel g).events = steps.map Prod.fst ∧
      (listCalls (restoreByPrefix s3svc pfx fuel g).events).length = steps.length ∧
      markerEvents (restoreByPrefix s3svc pfx fuel g).events
        = (restoreS3Object s3svc pfx (allMarkers steps) g).2 ∧
      (restoreByPrefix s3svc pfx fuel g).globals
        = (restoreS3Object s3svc pfx (allMarkers steps) g).1 := by
  have hr := restoreByPrefix_pages s3svc pfx steps ListingEnd.exhausted fuel g hp
    (by simpa [ListingEnd.calls] using hf)
  have hne : 1 ≤ steps.length := by
    cases steps with
    | nil => simp [Pages] at hp
    | cons st rest => simp
  rw [hr]
  simp [ListingEnd.status, ListingEnd.trace, listCalls_append, listCalls_pagesTrace,
    listCalls, markerEvents_append, markerEvents_pagesTrace, markerEvents, hne]

/-- C3 on the two pages of "orders/2020/" in the sample storage: two listing calls, the
second with the cursor of the first page. -/
theorem restoreByPrefix_processes_each_page_once_witness :
    listCalls (restoreByPrefix sampleS3 "orders/2020/" 1 sampleApply).events
      = [none, some "orders/2020/a"] :=
  (restoreByPrefix_processes_each_page_once sampleS3 "orders/2020/"
    (samplePages "orders/2020/") 1 sampleApply
    (by simp [Pages, samplePages, sampleS3]) (by decide)).2.2.2.1

/-- C5, on the code: with a storage that rejects every delete, an Apply run of
`restoreS3Object` on two qualifying markers reports both as restored, counts both and goes
on to the second after the first delete failed. -/
theorem restoreS3Object_ignores_delete_error :
    restoreS3Object rejectingS3 "a/"
        [⟨"a/x", some "v1", true⟩, ⟨"a/y", some "v2", true⟩] sampleApply
      = ({ sampleApply with totalRestored := 2 },
          [Event.restoring "a/x",
           Event.deleteObject "b" "a/x" (some "v1") (some "AccessDenied"),
           Event.restored "a/x",
           Event.restoring "a/y",
           Event.deleteObject "b" "a/y" (some "v2") (some "AccessDenied"),
           Event.restored "a/y"]) := by
  decide

/-- C6. When the first j - 1 listing calls of a prefix return pages with a cursor and the
j-th call returns an error, `restoreByPrefix` panics with that error: its listing calls are
those j calls and no more, the markers it has processed are those of pages 1 to j - 1, and
the counter has grown by the qualifying markers of those pages only (in Apply mode). -/
theorem restoreByPrefix_panics_on_listing_error (s3svc : S3) (pfx : String)
    (steps : List (Option String × List DeleteMarkerEntry)) (c : Option String) (e : String)
    (fuel : Nat) (g : Globals)
    (hp : Pages (s3svc.ListObjectVersions g.bucketName pfx) (some none) steps
      (ListingEnd.failed c e))
    (hf : steps.length ≤ fuel) :
    (restoreByPrefix s3svc pfx fuel g).status = Status.panicked e ∧
      (restoreByPrefix s3svc pfx fuel g).events
        = pagesTrace s3svc pfx g steps ++ [Event.listObjectVersions g.bucketName pfx c] ∧
      listCalls (restoreByPrefix s3svc pfx fuel g).events = steps.map Prod.fst ++ [c] ∧
      markerEvents (restoreByPrefix s3svc pfx fuel g).events
        = (restoreS3Object s3svc pfx (allMarkers steps) g).2 ∧
      (restoreByPrefix s3svc pfx fuel g).globals.totalRestored
        = g.totalRestored
          + (if g.dryRun then 0 else (allMarkers steps).countP (qualifies pfx)) := by
  have hr := restoreByPrefix_pages s3svc pfx steps (ListingEnd.failed c e) fuel g hp
    (by simpa [ListingEnd.calls] using hf)
  rw [hr]
  simp [ListingEnd.status, ListingEnd.trace, listCalls_append, listCalls_pagesTrace,
    listCalls, markerEvents_append, markerEvents_pagesTrace, markerEvents,
    restoreS3Object_globals]

/-- C6 on the sample: the first page holds no qualifying marker and the second call fails;
the task panics after two listing calls and the counter is still 0. -/
theorem restoreByPrefix_panics_on_listing_error_witness :
    (restoreByPrefix failingS3 "orders/2020/" 3 sampleApply).status
        = Status.panicked "RequestError: send request failed" ∧
      listCalls (restoreByPrefix failingS3 "orders/2020/" 3 sampleApply).events
        = [none, some "orders/2020/b"] ∧
      (restoreByPrefix failingS3 "orders/2020/" 3 sampleApply).globals.totalRestored = 0 := by
  have h := restoreByPrefix_panics_on_listing_error failingS3 "orders/2020/"
    [(none, [⟨"orders/2020/b", some "v1", false⟩])] (some "orders/2020/b")
    "RequestError: send request failed" 3 sampleApply
    (by simp [Pages, failingS3]) (by decide)
  refine ⟨h.1, h.2.2.1, ?_⟩
  rw [h.2.2.2.2]
  decide


/-! ## The prefixes file -/

theorem splitChars_head (sep : Char) (s : List Char) :
    ∃ fs, splitChars sep s = s.takeWhile (fun c => c != sep) :: fs := by
  induction s with
  | nil => exact ⟨[], rfl⟩
  | cons c cs ih =>
    obtain ⟨fs, hfs⟩ := ih
    by_cases h : c = sep
    · exact ⟨splitChars sep cs, by simp [splitChars, h]⟩
    · exact ⟨fs, by simp [splitChars, h, hfs]⟩

theorem Split_head (text : String) (sep : Char) :
    ∃ fs, Split text sep = String.mk (text.data.takeWhile (fun c => c != sep)) :: fs := by
  obtain ⟨fs, hfs⟩ := splitChars_head sep text.data
  exact ⟨fs.map String.mk, by simp [Split, hfs]⟩

theorem Replace_empty (s : String) (old : Char) :
    Replace s old "" = String.mk (s.data.filter (fun c => c != old)) := by
  unfold Replace
  congr 1
  induction s.data with
  | nil => rfl
  | cons c cs ih =>
    by_cases h : c = old <;> simp [List.flatMap_cons, h, ih]

theorem keptPrefix_iff (p : String) :
    (p != "embed_code" && p != "" && decide (p.length > 0)) = keptPrefix p := by
  have hl : (decide (p.length > 0)) = (p != "") := by
    cases p with
    | mk d =>
      cases d with
      | nil => decide
      | cons c cs => simp [String.length, String.ext_iff]
  rw [hl, keptPrefix]
  cases (p != "") <;> cases (p != "embed_code") <;> rfl

theorem parsePrefixesLoop_eq (lines : List String) (g : Globals) :
    parsePrefixesLoop lines g =
      (Status.returned,
        { g with prefixes := g.prefixes ++ (lines.map cleanedLine).filter keptPrefix }) := by
  induction lines generalizing g with
  | nil => simp [parsePrefixesLoop]
  | cons text rest ih =>
    obtain ⟨fs, hfs⟩ := Split_head text ','
    have hc : Replace (String.mk (text.data.takeWhile (fun c => c != ','))) '"' ""
        = cleanedLine text := by
      rw [Replace_empty, cleanedLine]
    simp only [parsePrefixesLoop, hfs, hc, keptPrefix_iff]
    by_cases hk : keptPrefix (cleanedLine text) = true
    · simp [hk, ih, List.filter_cons]
    · simp [hk, ih, List.filter_cons]

/-- C10. `parsePrefixesFile` appends to `prefixes`, in line order, the cleaned value of
every line whose cleaned value is neither empty nor "embed_code", and nothing else; each
appended prefix is non-empty, is not "embed_code" and holds neither a comma nor a double
quote, and the entries already in `prefixes` stay in front, unchanged. -/
theorem parsePrefixesFile_appends_cleaned (lines : List String) (g : Globals) :
    parsePrefixesFile ⟨none, lines, none⟩ g =
        (Status.returned,
          { g with prefixes := g.prefixes ++ (lines.map cleanedLine).filter keptPrefix }) ∧
      (∀ p, keptPrefix p = true ↔ p ≠ "" ∧ p ≠ "embed_code") ∧
      (∀ p ∈ (lines.map cleanedLine).filter keptPrefix,
        p ≠ "" ∧ p ≠ "embed_code" ∧ ',' ∉ p.data ∧ '"' ∉ p.data) ∧
      g.prefixes <+: (parsePrefixesFile ⟨none, lines, none⟩ g).2.prefixes := by
  have hk : ∀ p, keptPrefix p = true ↔ p ≠ "" ∧ p ≠ "embed_code" := by
    intro p
    simp [keptPrefix]
  have hrun : parsePrefixesFile ⟨none, lines, none⟩ g =
      (Status.returned,
        { g with prefixes := g.prefixes ++ (lines.map cleanedLine).filter keptPrefix }) := by
    simp [parsePrefixesFile, parsePrefixesLoop_eq]
  refine ⟨hrun, hk, ?_, ?_⟩
  · intro p hp
    obtain ⟨hmem, hkept⟩ := List.mem_filter.mp hp
    obtain ⟨text, _, rfl⟩ := List.mem_map.mp hmem
    refine ⟨((hk _).mp hkept).1, ((hk _).mp hkept).2, ?_, ?_⟩
    · intro hin
      have h1 := List.mem_of_mem_filter hin
      have h2 := List.mem_takeWhile_imp h1
      simp at h2
    · intro hin
      have h2 := List.of_mem_filter hin
      simp at h2
  · rw [hrun]
    exact List.prefix_append _ _

/-! ## The token channel -/

theorem Pool.step_invariant (C n : Nat) (a : Action) (s s1 : Pool)
    (hs : Pool.step C n a s = some s1)
    (hi : s.running.card = s.tokens ∧ s.tokens ≤ C ∧ s.started = List.range s.next ∧
      s.next ≤ n ∧ ∀ i ∈ s.running, i < s.next) :
    s1.running.card = s1.tokens ∧ s1.tokens ≤ C ∧ s1.started = List.range s1.next ∧
      s1.next ≤ n ∧ ∀ i ∈ s1.running, i < s1.next := by
  obtain ⟨hcard, hcap, hst, hn, hlt⟩ := hi
  cases a with
  | dispatch =>
    by_cases hg : s.next < n ∧ s.tokens < C
    · simp only [Pool.step, hg, and_self, if_true, Option.some.injEq] at hs
      subst hs
      have hnot : s.next ∉ s.running := fun h => Nat.lt_irrefl _ (hlt _ h)
      refine ⟨?_, ?_, ?_, ?_, ?_⟩
      · simp [Finset.card_insert_of_not_mem hnot, hcard]
      · exact hg.2
      · simp [hst, List.range_succ]
      · exact hg.1
      · intro i hi
        rcases Finset.mem_insert.mp hi with h | h
        · simp [h]
        · exact Nat.lt_succ_of_lt (hlt i h)
    · simp [Pool.step, hg] at hs
  | finish i =>
    by_cases hg : i ∈ s.running ∧ 0 < s.tokens
    · simp only [Pool.step, hg, and_self, if_true, Option.some.injEq] at hs
      subst hs
      refine ⟨?_, ?_, hst, hn, ?_⟩
      · simp [Finset.card_erase_of_mem hg.1, hcard]
      · exact Nat.le_trans (Nat.sub_le _ _) hcap
      · intro j hj
        exact hlt j (Finset.mem_of_mem_erase hj)
    · simp [Pool.step, hg] at hs

theorem Pool.exec_invariant (C n : Nat) (acts : List Action) :
    ∀ (s s1 : Pool), Pool.exec C n acts s = some s1 →
      (s.running.card = s.tokens ∧ s.tokens ≤ C ∧ s.started = List.range s.next ∧
        s.next ≤ n ∧ ∀ i ∈ s.running, i < s.next) →
      s1.running.card = s1.tokens ∧ s1.tokens ≤ C ∧ s1.started = List.range s1.next ∧
        s1.next ≤ n ∧ ∀ i ∈ s1.running, i < s1.next := by
  induction acts with
  | nil =>
    intro s s1 h hi
    simp only [Pool.exec, Option.some.injEq] at h
    subst h
    exact hi
  | cons a rest ih =>
    intro s s1 h hi
    cases hstep : Pool.step C n a s with
    | none => simp [Pool.exec, hstep] at h
    | some s2 =>
      simp only [Pool.exec, hstep] at h
      exact ih s2 s1 h (Pool.step_invariant C n a s s2 hstep hi)

/-- C8. In every state that the dispatch loop and its tasks can reach, the running tasks
are as many as the tokens in the channel and at most `C`; the prefixes dispatched so far
are exactly the indices below `next`, once each and in index order; and, for `C > 0`, a
state in which no step is possible has dispatched every prefix and has no task running. -/
theorem Pool.running_eq_tokens_le_capacity (C n : Nat) (acts : List Action) (s : Pool)
    (h : Pool.exec C n acts Pool.init = some s) :
    s.running.card = s.tokens ∧ s.tokens ≤ C ∧ s.started = List.range s.next ∧
      s.next ≤ n ∧ (∀ i ∈ s.running, i < s.next) ∧
      (0 < C → (∀ a, Pool.step C n a s = none) →
        s.started = List.range n ∧ s.running = ∅) := by
  have hi := Pool.exec_invariant C n acts Pool.init s h
    (by simp [Pool.init])
  obtain ⟨hcard, hcap, hst, hn, hlt⟩ := hi
  refine ⟨hcard, hcap, hst, hn, hlt, ?_⟩
  intro hC hstuck
  have hrun : s.running = ∅ := by
    by_contra hne
    obtain ⟨i, hi⟩ := Finset.nonempty_iff_ne_empty.mpr hne
    have hpos : 0 < s.tokens := by
      rw [← hcard]
      exact Finset.card_pos.mpr ⟨i, hi⟩
    have := hstuck (Action.finish i)
    simp [Pool.step, hi, hpos] at this
  have htok : s.tokens = 0 := by
    rw [← hcard, hrun]
    rfl
  have hnext : s.next = n := by
    by_contra hne
    have hlt2 : s.next < n := Nat.lt_of_le_of_ne hn hne
    have := hstuck Action.dispatch
    simp [Pool.step, hlt2, htok, hC] at this
  exact ⟨by rw [hst, hnext], hrun⟩

/-- C8 on three prefixes and a channel of capacity 2: a full run dispatches 0, 1, 2 in
this order and ends with an empty channel. -/
theorem Pool.running_eq_tokens_le_capacity_witness :
    Pool.exec 2 3
        [Action.dispatch, Action.dispatch, Action.finish 0, Action.dispatch,
         Action.finish 2, Action.finish 1] Pool.init
      = some { next := 3, tokens := 0, running := ∅, started := [0, 1, 2] } ∧
    (∅ : Finset Nat).card = 0 ∧ (0 : Nat) ≤ 2 ∧ [0, 1, 2] = List.range 3 :=
  ⟨by decide,
    (Pool.running_eq_tokens_le_capacity 2 3
      [Action.dispatch, Action.dispatch, Action.finish 0, Action.dispatch,
       Action.finish 2, Action.finish 1]
      { next := 3, tokens := 0, running := ∅, started := [0, 1, 2] } (by decide)).1,
    (Pool.running_eq_tokens_le_capacity 2 3
      [Action.dispatch, Action.dispatch, Action.finish 0, Action.dispatch,
       Action.finish 2, Action.finish 1]
      { next := 3, tokens := 0, running := ∅, started := [0, 1, 2] } (by decide)).2.1,
    (Pool.running_eq_tokens_le_capacity 2 3
      [Action.dispatch, Action.dispatch, Action.finish 0, Action.dispatch,
       Action.finish 2, Action.finish 1]
      { next := 3, tokens := 0, running := ∅, started := [0, 1, 2] } (by decide)).2.2.1⟩

/-! ## The shared counter -/

/-- C9, on the code: two tasks that each restore one marker, both reading `totalRestored`
before either writes it back; both increments are done and the counter ends at 1. -/
theorem Shared.lost_update :
    Shared.run [0, 1, 0, 1] ⟨0, [⟨1, none⟩, ⟨1, none⟩]⟩ = ⟨1, [⟨0, none⟩, ⟨0, none⟩]⟩ := by
  decide


/-! ## Dry run against Apply -/

theorem restoreS3Object_dry_globals (s3svc : S3) (pfx : String)
    (markers : List DeleteMarkerEntry) (g : Globals) (hd : g.dryRun = true) :
    (restoreS3Object s3svc pfx markers g).1 = g := by
  rw [restoreS3Object_globals]
  cases g
  simp_all

theorem restoreS3Object_would_eq_deleted (s3svc : S3) (pfx : String)
    (markers : List DeleteMarkerEntry) (g : Globals) (n : Nat) (hd : g.dryRun = true) :
    wouldHaveRestoredKeys (restoreS3Object s3svc pfx markers g).2 =
      (deleteCalls (restoreS3Object s3svc pfx markers
        { g with dryRun := false, totalRestored := n }).2).map Prod.fst := by
  rw [restoreS3Object_would_dry s3svc pfx markers g hd,
    restoreS3Object_deleteCalls_apply s3svc pfx markers _ rfl]
  simp [List.map_map, Function.comp_def]

theorem restoreS3Object_apply_globals (s3svc : S3) (pfx : String)
    (markers : List DeleteMarkerEntry) (g : Globals) (n : Nat) :
    (restoreS3Object s3svc pfx markers { g with dryRun := false, totalRestored := n }).1
      = { g with dryRun := false,
                 totalRestored := n + markers.countP (qualifies pfx) } := by
  rw [restoreS3Object_globals]
  simp

theorem restoreByPrefixLoop_dry (s3svc : S3) (pfx : String) :
    ∀ (fuel : Nat) (nk : Option String) (g : Globals), g.dryRun = true →
      deleteCalls (restoreByPrefixLoop s3svc pfx fuel nk g).events = [] ∧
        (restoreByPrefixLoop s3svc pfx fuel nk g).globals = g := by
  intro fuel
  induction fuel with
  | zero =>
    intro nk g _
    cases nk <;> simp [restoreByPrefixLoop, deleteCalls]
  | succ f ih =>
    intro nk g hd
    cases nk with
    | none => simp [restoreByPrefixLoop, deleteCalls]
    | some k =>
      cases hl : s3svc.ListObjectVersions g.bucketName pfx (some k) with
      | err e => simp [restoreByPrefixLoop, hl, deleteCalls]
      | ok objects =>
        have hg := restoreS3Object_dry_globals s3svc pfx objects.DeleteMarkers g hd
        have hrec := ih objects.NextKeyMarker g hd
        simp [restoreByPrefixLoop, hl, hg, deleteCalls, deleteCalls_append,
          restoreS3Object_deleteCalls_dry s3svc pfx _ g hd, hrec.1, hrec.2]

theorem restoreByPrefixLoop_dry_apply (s3svc : S3) (pfx : String) :
    ∀ (fuel : Nat) (nk : Option String) (g : Globals) (n : Nat), g.dryRun = true →
      (restoreByPrefixLoop s3svc pfx fuel nk g).status
          = (restoreByPrefixLoop s3svc pfx fuel nk
              { g with dryRun := false, totalRestored := n }).status ∧
        wouldHaveRestoredKeys (restoreByPrefixLoop s3svc pfx fuel nk g).events
          = (deleteCalls (restoreByPrefixLoop s3svc pfx fuel nk
              { g with dryRun := false, totalRestored := n }).events).map Prod.fst ∧
        ∃ n1, (restoreByPrefixLoop s3svc pfx fuel nk
              { g with dryRun := false, totalRestored := n }).globals
            = { g with dryRun := false, totalRestored := n1 } := by
  intro fuel
  induction fuel with
  | zero =>
    intro nk g n _
    cases nk <;>
      simp [restoreByPrefixLoop, deleteCalls, wouldHaveRestoredKeys]
  | succ f ih =>
    intro nk g n hd
    cases nk with
    | none => simp [restoreByPrefixLoop, deleteCalls, wouldHaveRestoredKeys]
    | some k =>
      cases hl : s3svc.ListObjectVersions g.bucketName pfx (some k) with
      | err e => simp [restoreByPrefixLoop, hl, deleteCalls, wouldHaveRestoredKeys]
      | ok objects =>
        have hg := restoreS3Object_dry_globals s3svc pfx objects.DeleteMarkers g hd
        have ha := restoreS3Object_apply_globals s3svc pfx objects.DeleteMarkers g n
        have hw := restoreS3Object_would_eq_deleted s3svc pfx objects.DeleteMarkers g n hd
        obtain ⟨h1, h2, n1, h3⟩ := ih objects.NextKeyMarker g
          (n + objects.DeleteMarkers.countP (qualifies pfx)) hd
        refine ⟨?_, ?_, n1, ?_⟩
        · simp [restoreByPrefixLoop, hl, hg, ha, h1]
        · simp [restoreByPrefixLoop, hl, hg, ha, deleteCalls, wouldHaveRestoredKeys,
            deleteCalls_append, wouldHaveRestoredKeys_append, hw, h2]
        · simp [restoreByPrefixLoop, hl, ha, h3]

theorem restoreByPrefix_dry (s3svc : S3) (pfx : String) (fuel : Nat) (g : Globals)
    (hd : g.dryRun = true) :
    deleteCalls (restoreByPrefix s3svc pfx fuel g).events = [] ∧
      (restoreByPrefix s3svc pfx fuel g).globals = g := by
  cases hl : s3svc.ListObjectVersions g.bucketName pfx none with
  | err e => simp [restoreByPrefix, hl, deleteCalls]
  | ok objects =>
    have hg := restoreS3Object_dry_globals s3svc pfx objects.DeleteMarkers g hd
    have hrec := restoreByPrefixLoop_dry s3svc pfx fuel objects.NextKeyMarker g hd
    have hdel := restoreS3Object_deleteCalls_dry s3svc pfx objects.DeleteMarkers g hd
    simp only [restoreByPrefix, hl, hg]
    split <;>
      simp [deleteCalls, deleteCalls_append, hdel, hrec.1, hrec.2]

theorem restoreByPrefix_dry_apply (s3svc : S3) (pfx : String) (fuel : Nat) (g : Globals)
    (n : Nat) (hd : g.dryRun = true) :
    (restoreByPrefix s3svc pfx fuel g).status
        = (restoreByPrefix s3svc pfx fuel
            { g with dryRun := false, totalRestored := n }).status ∧
      wouldHaveRestoredKeys (restoreByPrefix s3svc pfx fuel g).events
        = (deleteCalls (restoreByPrefix s3svc pfx fuel
            { g with dryRun := false, totalRestored := n }).events).map Prod.fst ∧
      ∃ n1, (restoreByPrefix s3svc pfx fuel
            { g with dryRun := false, totalRestored := n }).globals
          = { g with dryRun := false, totalRestored := n1 } := by
  cases hl : s3svc.ListObjectVersions g.bucketName pfx none with
  | err e => simp [restoreByPrefix, hl, deleteCalls, wouldHaveRestoredKeys]
  | ok objects =>
    have hg := restoreS3Object_dry_globals s3svc pfx objects.DeleteMarkers g hd
    have ha := restoreS3Object_apply_globals s3svc pfx objects.DeleteMarkers g n
    have hw := restoreS3Object_would_eq_deleted s3svc pfx objects.DeleteMarkers g n hd
    obtain ⟨h1, h2, n1, h3⟩ := restoreByPrefixLoop_dry_apply s3svc pfx fuel
      objects.NextKeyMarker g (n + objects.DeleteMarkers.countP (qualifies pfx)) hd
    simp only [restoreByPrefix, hl, hg, ha, ← h1, h3]
    cases hst : (restoreByPrefixLoop s3svc pfx fuel objects.NextKeyMarker g).status <;>
      simp [deleteCalls, wouldHaveRestoredKeys, deleteCalls_append,
        wouldHaveRestoredKeys_append, hw, h2]

theorem restoreStarterLoop_dry (s3svc : S3) (fuel : Nat) :
    ∀ (ps : List String) (g : Globals), g.dryRun = true →
      deleteCalls (restoreStarterLoop s3svc fuel ps g).events = [] ∧
        (restoreStarterLoop s3svc fuel ps g).globals = g := by
  intro ps
  induction ps with
  | nil => intro g _; simp [restoreStarterLoop, deleteCalls]
  | cons p rest ih =>
    intro g hd
    obtain ⟨h1, h2⟩ := restoreByPrefix_dry s3svc p fuel g hd
    obtain ⟨h3, h4⟩ := ih g hd
    by_cases hm : g.maxThreads = 0
    · simp [restoreStarterLoop, hm, deleteCalls]
    · simp only [restoreStarterLoop, hm, if_false, h2]
      split <;> simp [deleteCalls, deleteCalls_append, h1, h2, h3, h4]

theorem restoreStarterLoop_dry_apply (s3svc : S3) (fuel : Nat) :
    ∀ (ps : List String) (g : Globals) (n : Nat), g.dryRun = true →
      (restoreStarterLoop s3svc fuel ps g).status
          = (restoreStarterLoop s3svc fuel ps
              { g with dryRun := false, totalRestored := n }).status ∧
        wouldHaveRestoredKeys (restoreStarterLoop s3svc fuel ps g).events
          = (deleteCalls (restoreStarterLoop s3svc fuel ps
              { g with dryRun := false, totalRestored := n }).events).map Prod.fst := by
  intro ps
  induction ps with
  | nil => intro g n _; simp [restoreStarterLoop, deleteCalls, wouldHaveRestoredKeys]
  | cons p rest ih =>
    intro g n hd
    obtain ⟨h1, h2, n1, h3⟩ := restoreByPrefix_dry_apply s3svc p fuel g n hd
    obtain ⟨_, hg⟩ := restoreByPrefix_dry s3svc p fuel g hd
    obtain ⟨h4, h5⟩ := ih g n1 hd
    by_cases hm : g.maxThreads = 0
    · simp [restoreStarterLoop, hm, deleteCalls, wouldHaveRestoredKeys]
    · simp only [restoreStarterLoop, hm, if_false, ← h1, h3, hg]
      cases hst : (restoreByPrefix s3svc p fuel g).status <;>
        simp [deleteCalls, wouldHaveRestoredKeys, deleteCalls_append,
          wouldHaveRestoredKeys_append, h2, h4, h5]


theorem restoreStarter_dry (s3svc : S3) (fuel : Nat) (g : Globals) (hd : g.dryRun = true) :
    deleteCalls (restoreStarter s3svc fuel g).events = [] ∧
      (restoreStarter s3svc fuel g).globals = g := by
  obtain ⟨h1, h2⟩ := restoreStarterLoop_dry s3svc fuel g.prefixes g hd
  by_cases hm : g.maxThreads < 0
  · simp [restoreStarter, hm, deleteCalls]
  · simp only [restoreStarter, hm, if_false, h2]
    split <;> simp [deleteCalls, deleteCalls_append, h1]

theorem parsePrefixesFile_totalRestored (file : PrefixesFile) (g : Globals) :
    (parsePrefixesFile file g).2.totalRestored = g.totalRestored := by
  obtain ⟨openErr, lines, scanErr⟩ := file
  cases openErr <;> cases scanErr <;> simp [parsePrefixesFile, parsePrefixesLoop_eq]

theorem restoreStarter_dry_apply (s3svc : S3) (fuel : Nat) (g : Globals)
    (hd : g.dryRun = true) :
    (restoreStarter s3svc fuel g).status
        = (restoreStarter s3svc fuel { g with dryRun := false }).status ∧
      wouldHaveRestoredKeys (restoreStarter s3svc fuel g).events
        = (deleteCalls (restoreStarter s3svc fuel { g with dryRun := false }).events).map
            Prod.fst := by
  obtain ⟨h3, h4⟩ := restoreStarterLoop_dry_apply s3svc fuel g.prefixes g g.totalRestored hd
  by_cases hm : g.maxThreads < 0
  · simp [restoreStarter, hm, deleteCalls, wouldHaveRestoredKeys]
  · simp only [restoreStarter, hm, if_false, ← h3]
    cases hst : (restoreStarterLoop s3svc fuel g.prefixes g).status <;>
      simp [deleteCalls, wouldHaveRestoredKeys, deleteCalls_append,
        wouldHaveRestoredKeys_append, h4]

/-! ## Claims on whole runs -/

/-- C2. A run with `dryRun = true` issues no delete call and leaves `totalRestored` at 0,
whatever the prefixes and the listing; the keys that a call of `restoreS3Object` reports are
those of the markers that are latest and whose key starts with the prefix; the run ends as
the Apply run on the same listing does and reports exactly the keys which that run deletes,
in the same order. A single prefix task in a dry run issues no delete call and leaves the
package variables as they are, whatever the counter is when it runs. The same holds of
`showObjects`, which sets `dryRun`, against `restoreObjects`. -/
theorem dryRun_deletes_nothing_reports_apply_set (s3svc : S3) (fuel : Nat) (g : Globals)
    (hd : g.dryRun = true) (h0 : g.totalRestored = 0) :
    deleteCalls (restoreStarter s3svc fuel g).events = [] ∧
      (restoreStarter s3svc fuel g).globals.totalRestored = 0 ∧
      (∀ pfx markers, wouldHaveRestoredKeys (restoreS3Object s3svc pfx markers g).2
        = (markers.filter (qualifies pfx)).map DeleteMarkerEntry.Key) ∧
      (restoreStarter s3svc fuel g).status
        = (restoreStarter s3svc fuel { g with dryRun := false }).status ∧
      wouldHaveRestoredKeys (restoreStarter s3svc fuel g).events
        = (deleteCalls (restoreStarter s3svc fuel { g with dryRun := false }).events).map
            Prod.fst ∧
      (∀ pfx n, deleteCalls
          (restoreByPrefix s3svc pfx fuel { g with totalRestored := n }).events = [] ∧
        (restoreByPrefix s3svc pfx fuel { g with totalRestored := n }).globals
          = { g with totalRestored := n }) ∧
      (∀ file g0, deleteCalls (showObjects s3svc file fuel g0).events = [] ∧
        (showObjects s3svc file fuel g0).globals.totalRestored = g0.totalRestored ∧
        wouldHaveRestoredKeys (showObjects s3svc file fuel g0).events
          = (deleteCalls (restoreObjects s3svc file fuel g0).events).map Prod.fst) := by
  obtain ⟨h1, h2⟩ := restoreStarter_dry s3svc fuel g hd
  obtain ⟨h3, h4⟩ := restoreStarter_dry_apply s3svc fuel g hd
  refine ⟨h1, by rw [h2, h0], ?_, h3, h4, ?_, ?_⟩
  · intro pfx markers
    exact restoreS3Object_would_dry s3svc pfx markers g hd
  · intro pfx n
    exact restoreByPrefix_dry s3svc pfx fuel { g with totalRestored := n } hd
  · intro file g0
    have ht := parsePrefixesFile_totalRestored file g0
    cases hpf : parsePrefixesFile file g0 with
    | mk st g1 =>
      rw [hpf] at ht
      obtain ⟨h5, h6⟩ := restoreStarter_dry s3svc fuel { g1 with dryRun := true } rfl
      obtain ⟨_, h8⟩ := restoreStarter_dry_apply s3svc fuel { g1 with dryRun := true } rfl
      cases st <;>
        simp_all [showObjects, restoreObjects, deleteCalls, wouldHaveRestoredKeys]

/-- C2 on the sample storage: the dry run over the two sample prefixes reports the two
qualifying keys, issues no delete call and leaves the counter at 0. -/
theorem dryRun_deletes_nothing_reports_apply_set_witness :
    deleteCalls (restoreStarter sampleS3 1 sampleDry).events = [] ∧
      (restoreStarter sampleS3 1 sampleDry).globals.totalRestored = 0 ∧
      wouldHaveRestoredKeys (restoreStarter sampleS3 1 sampleDry).events
        = ["orders/2020/a", "orders/2021/c"] :=
  ⟨(dryRun_deletes_nothing_reports_apply_set sampleS3 1 sampleDry rfl rfl).1,
    (dryRun_deletes_nothing_reports_apply_set sampleS3 1 sampleDry rfl rfl).2.1,
    by decide⟩

theorem restoreStarterLoop_pages (s3svc : S3) (fuel : Nat)
    (pagesOf : String → List (Option String × List DeleteMarkerEntry)) :
    ∀ (ps : List String) (g : Globals), g.maxThreads ≠ 0 →
      (∀ p ∈ ps, Pages (s3svc.ListObjectVersions g.bucketName p) (some none) (pagesOf p)
          ListingEnd.exhausted ∧ (pagesOf p).length ≤ fuel + 1) →
      (restoreStarterLoop s3svc fuel ps g).status = Status.returned ∧
        (restoreStarterLoop s3svc fuel ps g).globals =
          { g with totalRestored := g.totalRestored +
              (if g.dryRun then 0
               else (ps.map (fun p => (allMarkers (pagesOf p)).countP (qualifies p))).sum) }
        := by
  intro ps
  induction ps with
  | nil =>
    intro g _ _
    simp [restoreStarterLoop]
  | cons p rest ih =>
    intro g hm hp
    obtain ⟨hpg, hlen⟩ := hp p (by simp)
    have hr := restoreByPrefix_pages s3svc p (pagesOf p) ListingEnd.exhausted fuel g hpg
      (by simpa [ListingEnd.calls] using hlen)
    have hg := restoreS3Object_globals s3svc p (allMarkers (pagesOf p)) g
    obtain ⟨h1, h2⟩ := ih (restoreS3Object s3svc p (allMarkers (pagesOf p)) g).1
      (by rw [hg]; exact hm)
      (by
        intro q hq
        rw [hg]
        exact hp q (by simp [hq]))
    simp only [restoreStarterLoop, hm, if_false, hr, ListingEnd.status, h1, h2]
    refine ⟨trivial, ?_⟩
    rw [hg]
    by_cases hd : g.dryRun = true <;> simp [hd, Nat.add_assoc]

/-- C4. Started from `totalRestored = 0` in Apply mode with a channel of positive
capacity, the run that executes the prefix tasks one after another, each prefix having a
finite error-free listing, returns with `totalRestored` equal to the sum over the prefixes
(one summand per occurrence) of the number of listed markers that are latest and whose key
starts with that prefix, and prints that total. -/
theorem restoreStarter_totalRestored_eq_sum (s3svc : S3) (fuel : Nat) (g : Globals)
    (pagesOf : String → List (Option String × List DeleteMarkerEntry))
    (hm : 0 < g.maxThreads) (hd : g.dryRun = false) (h0 : g.totalRestored = 0)
    (hp : ∀ p ∈ g.prefixes,
      Pages (s3svc.ListObjectVersions g.bucketName p) (some none) (pagesOf p)
        ListingEnd.exhausted ∧ (pagesOf p).length ≤ fuel + 1) :
    (restoreStarter s3svc fuel g).status = Status.returned ∧
      (restoreStarter s3svc fuel g).globals.totalRestored
        = (g.prefixes.map (fun p => (allMarkers (pagesOf p)).countP (qualifies p))).sum ∧
      (restoreStarter s3svc fuel g).events.getLast?
        = some (Event.allDone
            (g.prefixes.map (fun p => (allMarkers (pagesOf p)).countP (qualifies p))).sum)
      := by
  obtain ⟨h1, h2⟩ := restoreStarterLoop_pages s3svc fuel pagesOf g.prefixes g
    (by omega) hp
  have hneg : ¬ g.maxThreads < 0 := by omega
  simp only [restoreStarter, hneg, if_false, h1, h2, hd, h0]
  refine ⟨trivial, by simp, ?_⟩
  rw [← List.cons_append, List.getLast?_concat]
  simp

/-- C4 on the scenario of the specification: two prefixes, one latest marker under each and
a marker that is not latest under the first; the Apply run restores exactly 2. -/
theorem restoreStarter_totalRestored_eq_sum_witness :
    (restoreStarter sampleS3 1 sampleApply).status = Status.returned ∧
      (restoreStarter sampleS3 1 sampleApply).globals.totalRestored = 2 := by
  have h := restoreStarter_totalRestored_eq_sum sampleS3 1 sampleApply samplePages
    (by decide) rfl rfl
    (by
      intro p hp
      have hp2 : p = "orders/2020/" ∨ p = "orders/2021/" := by
        simpa [sampleApply, sampleDry, initGlobals] using hp
      rcases hp2 with rfl | rfl
      · exact ⟨by simp [Pages, samplePages, sampleS3], by decide⟩
      · exact ⟨by simp [Pages, samplePages, sampleS3], by decide⟩)
  refine ⟨h.1, ?_⟩
  rw [h.2.1]
  decide

/-- C7. With no prefix and `maxThreads >= 0`, in either mode, `restoreStarter` returns
having printed only its opening and closing lines: no task is started, no listing or delete
call is made, and `totalRestored` is 0; the dispatch loop has no step to take. -/
theorem restoreStarter_no_prefixes (s3svc : S3) (fuel : Nat) (g : Globals)
    (hm : 0 ≤ g.maxThreads) (hp : g.prefixes = []) (h0 : g.totalRestored = 0) :
    restoreStarter s3svc fuel g
        = ⟨Status.returned, g, [Event.totalPrefixes 0, Event.allDone 0]⟩ ∧
      listCalls (restoreStarter s3svc fuel g).events = [] ∧
      deleteCalls (restoreStarter s3svc fuel g).events = [] ∧
      (restoreStarter s3svc fuel g).globals.totalRestored = 0 ∧
      (∀ a, Pool.step g.maxThreads.toNat 0 a Pool.init = none) := by
  have hneg : ¬ g.maxThreads < 0 := by omega
  have hrun : restoreStarter s3svc fuel g
      = ⟨Status.returned, g, [Event.totalPrefixes 0, Event.allDone 0]⟩ := by
    simp [restoreStarter, hneg, hp, restoreStarterLoop, h0]
  refine ⟨hrun, ?_, ?_, ?_, ?_⟩
  · rw [hrun]; rfl
  · rw [hrun]; rfl
  · rw [hrun]; exact h0
  · intro a
    cases a <;> simp [Pool.step, Pool.init]

/-- C7 with `maxThreads = 0`, in Apply mode and in DryRun mode. -/
theorem restoreStarter_no_prefixes_witness :
    (restoreStarter sampleS3 0 { sampleApply with maxThreads := 0, prefixes := [] }).status
        = Status.returned ∧
      (restoreStarter sampleS3 0 { sampleDry with maxThreads := 0, prefixes := [] }).events
        = [Event.totalPrefixes 0, Event.allDone 0] := by
  have h1 := restoreStarter_no_prefixes sampleS3 0
    { sampleApply with maxThreads := 0, prefixes := [] } (by decide) rfl rfl
  have h2 := restoreStarter_no_prefixes sampleS3 0
    { sampleDry with maxThreads := 0, prefixes := [] } (by decide) rfl rfl
  exact ⟨by rw [h1.1], by rw [h2.1]⟩

end S3Restore
